import Mathlib

/-! # go-elementrem: release service and chain configuration

A shallow embedding of `release/release.go` (the release-monitoring service)
and of `core/config.go` (`ChainConfig.IsHomestead`), followed by the
properties established about them.

Conventions of the embedding:

* `uint32` fields are natural numbers.  The code only compares and prints
  them, so no arithmetic can wrap; every theorem below holds for all naturals
  and in particular for the values below `2 ^ 32`.
* byte arrays (`[20]byte`, `common.Address`) are lists of naturals, a byte
  being a value below `256`; `Commit[:4]` is `List.take 4`.
* Go strings are Lean strings, `len` is the length in bytes.
* a call `glog.V(level).Info(...)` is recorded as a log line carrying its
  level; the verbosity filter of the sink is outside the files at hand.
-/

namespace Release

/-! ## The fragment of Go's `fmt` and `strings` used by `checker` -/

/-- An operand handed to `Sprintf` / `Infof`. -/
inductive Arg where
  | uint (n : Nat)
  | bytes (bs : List Nat)
  | err (msg : String)
  deriving DecidableEq, Repr

/-- Two lower-case hexadecimal digits of one byte, as `%x` prints it. -/
def hexByte (b : Nat) : List Char :=
  [Nat.digitChar (b / 16 % 16), Nat.digitChar (b % 16)]

/-- Rendering of a byte slice under `%x`: two hex digits per byte, no separator. -/
def hexBytes : List Nat → List Char
  | [] => []
  | b :: bs => hexByte b ++ hexBytes bs

/-- Rendering of an unsigned integer under `%d`: its decimal digits. -/
def decimal (n : Nat) : List Char := Nat.toDigits 10 n

/-- Rendering of one operand under one verb.  `checker` uses `%d` on `uint32`,
`%x` on byte slices and arrays, and `%v` on errors; in Go `%v` on an unsigned
integer is its decimal form and on an error its `Error()` text.  No other
pairing occurs in this file; it is rendered as a marker. -/
def fmtVerb (verb : Char) (a : Arg) : List Char :=
  match verb, a with
  | 'd', .uint n => decimal n
  | 'v', .uint n => decimal n
  | 'x', .bytes bs => hexBytes bs
  | 'v', .err msg => msg.toList
  | 's', .err msg => msg.toList
  | v, _ => ['%', '!', v, '(', 'B', 'A', 'D', ')']

/-- The format interpreter: copies the text, replaces `%%` by `%`, and each
`%verb` by the rendering of the next operand (`%!verb(MISSING)` when the
operands are exhausted, `%!(NOVERB)` for a `%` that ends the format).  Every
call in this file passes exactly the operands its format consumes, so the
report `fmt` appends for surplus operands is not modelled. -/
def sprintfAux : List Char → List Arg → List Char
  | [], _ => []
  | ['%'], _ => "%!(NOVERB)".toList
  | '%' :: '%' :: rest, args => '%' :: sprintfAux rest args
  | '%' :: v :: rest, a :: args => fmtVerb v a ++ sprintfAux rest args
  | '%' :: v :: rest, [] => ['%', '!', v] ++ "(MISSING)".toList ++ sprintfAux rest []
  | c :: rest, args => c :: sprintfAux rest args

/-- Go's `fmt.Sprintf` on the fragment above. -/
def Sprintf (format : String) (args : List Arg) : String :=
  String.mk (sprintfAux format.toList args)

/-- Go's builtin `len` on a string: the number of bytes. -/
def len (s : String) : Nat := s.utf8ByteSize

/-- Go's `strings.Repeat`. -/
def Repeat (s : String) : Nat → String
  | 0 => ""
  | count + 1 => s ++ Repeat s count

/-! ## Data model -/

/-- Config contains the configurations of the release service. -/
structure Config where
  Oracle : List Nat
  Major : Nat
  Minor : Nat
  Patch : Nat
  Commit : List Nat
  deriving DecidableEq, Repr

/-- Modelled from the spec: the value returned by a successful
`ReleaseOracle.CurrentVersion` call; the generated contract binding that
declares it is not among the files at hand.  The spec's VersionTuple:
`{major: uint32, minor: uint32, patch: uint32, commitHash: 20-byte sequence}`. -/
structure Version where
  Major : Nat
  Minor : Nat
  Patch : Nat
  Commit : List Nat
  deriving DecidableEq, Repr

/-- Modelled from the spec: the levels of the log sink (`logger.Error`,
`logger.Warn`, `logger.Debug` in the code); the file declaring the constants
is not among the files at hand.  The spec names four levels in use: debug,
info, warning, error. -/
inductive LogLevel where
  | Error
  | Warn
  | Info
  | Debug
  deriving DecidableEq, Repr

/-- One call to the log sink: `glog.V(level).Info(text)`. -/
structure LogLine where
  level : LogLevel
  text : String
  deriving DecidableEq, Repr

/-- The result of `r.oracle.CurrentVersion(nil)`: a version with a nil error,
the sentinel `bind.ErrNoCode`, or any other error (with its `Error()` text). -/
inductive PollOutcome where
  | ok (version : Version)
  | errNoCode
  | errOther (msg : String)
  deriving DecidableEq, Repr

/-! ## The body of the timer case of `checker` -/

/-- The condition of the `if` at lines 123-125 of `release.go`:
"notify if newer than ours". -/
def isNewer (version : Version) (config : Config) : Bool :=
  decide (version.Major > config.Major) ||
    (decide (version.Major = config.Major) && decide (version.Minor > config.Minor)) ||
    (decide (version.Major = config.Major) && decide (version.Minor = config.Minor) &&
      decide (version.Patch > config.Patch))

/-- The operands of both version messages, in the order the code passes them. -/
def versionArgs (config : Config) (version : Version) : List Arg :=
  [.uint config.Major, .uint config.Minor, .uint config.Patch, .bytes (config.Commit.take 4),
   .uint version.Major, .uint version.Minor, .uint version.Patch, .bytes (version.Commit.take 4)]

/-- The log lines produced by one pass through the timer case of `checker`,
from the oracle's answer on (lines 113-139). -/
def pollStep (config : Config) : PollOutcome → List LogLine
  | .errNoCode =>
      [⟨.Debug, Sprintf "Release oracle not found at %x" [.bytes config.Oracle]⟩]
  | .errOther msg =>
      [⟨.Error, Sprintf "Failed to retrieve current release: %v" [.err msg]⟩]
  | .ok version =>
      if isNewer version config then
        let warning := Sprintf
          "Client v%d.%d.%d-%x seems older than the latest upstream release v%d.%d.%d-%x"
          (versionArgs config version)
        let howtofix := Sprintf
          "Please check https://github.com/elementrem/go-elementrem/releases for new releases" []
        let separator := Repeat "-" (len warning)
        [⟨.Warn, separator⟩, ⟨.Warn, warning⟩, ⟨.Warn, howtofix⟩, ⟨.Warn, separator⟩]
      else
        [⟨.Debug, Sprintf "Client v%d.%d.%d-%x seems up to date with upstream v%d.%d.%d-%x"
          (versionArgs config version)⟩]

/-! ## The service as a transition system

`Start` launches `checker` on its own goroutine, `Stop` talks to it over the
unbuffered channel `r.quit`.  The goroutine is either blocked in its `select`,
inside the timer case (between `timer.Reset` and the log calls, waiting for
`CurrentVersion` to return), or gone.  An execution is a list of events, each
enabled or not in a given state; the choice `select` makes when both cases
are ready is the choice of the next event. -/

/-- Interval to check for new releases: `time.Hour`, in nanoseconds. -/
def releaseRecheckInterval : Nat := 3600 * 1000000000

/-- Where the `checker` goroutine stands. -/
inductive Loop where
  | atSelect
  | polling
  | exited
  deriving DecidableEq, Repr

/-- Where the caller of `Stop` stands: not in `Stop`, blocked in
`r.quit <- errc`, or back from `Stop` with the value read from `errc`
(`none` is Go's nil error). -/
inductive Caller where
  | idle
  | sending
  | returned (err : Option String)
  deriving DecidableEq, Repr

/-- The state of one service instance after `Start`. -/
structure Service where
  config : Config
  loop : Loop
  caller : Caller
  now : Nat
  timer : Nat
  polls : Nat
  log : List LogLine
  deriving DecidableEq, Repr

/-- What can happen next. -/
inductive Event where
  | tick (d : Nat)
  | timerFire
  | oracleReturn (o : PollOutcome)
  | stopCall
  | quitRecv
  deriving DecidableEq, Repr

/-- The state right after `Start`: `go r.checker()` has run up to the `select`,
with `time.NewTimer(0)` due at once.  Time is counted from here. -/
def Start (config : Config) : Service :=
  { config := config, loop := .atSelect, caller := .idle, now := 0, timer := 0,
    polls := 0, log := [] }

/-- One event.
* `tick d`: `d` nanoseconds pass.
* `timerFire`: the `select` takes `case <-timer.C` (the timer is due); the
  timer is reset to one interval from now and `CurrentVersion` is called.
* `oracleReturn o`: the call returns `o`; the rest of the case body logs and
  the loop is back at its `select`.
* `stopCall`: a caller enters `Stop` and blocks sending `errc` on `r.quit`.
* `quitRecv`: the `select` takes `case errc := <-r.quit`, sends nil on `errc`
  and returns; `Stop` returns the nil it reads. -/
def step (s : Service) : Event → Option Service
  | .tick d => some { s with now := s.now + d }
  | .timerFire =>
      if s.loop = .atSelect ∧ s.timer ≤ s.now then
        some { s with timer := s.now + releaseRecheckInterval, loop := .polling,
                      polls := s.polls + 1 }
      else none
  | .oracleReturn o =>
      if s.loop = .polling then
        some { s with log := s.log ++ pollStep s.config o, loop := .atSelect }
      else none
  | .stopCall =>
      if s.caller = .idle then some { s with caller := .sending } else none
  | .quitRecv =>
      if s.loop = .atSelect ∧ s.caller = .sending then
        some { s with loop := .exited, caller := .returned none }
      else none

/-- An execution: the events in order; `none` when one of them is not enabled. -/
def run (s : Service) : List Event → Option Service
  | [] => some s
  | e :: es => (step s e).bind fun s' => run s' es

/-- The events of one poll per outcome, one interval apart. -/
def pollTrace : List PollOutcome → List Event
  | [] => []
  | o :: os => .tick releaseRecheckInterval :: .timerFire :: .oracleReturn o :: pollTrace os

/-- The number of lines of a log at a given level. -/
def countLevel (lvl : LogLevel) (log : List LogLine) : Nat :=
  (log.filter fun l => decide (l.level = lvl)).length

/-- The handshake invariant: `Stop` has returned exactly when the loop has
exited, and what it returned is nil. -/
def Handshake (s : Service) : Prop :=
  (∀ err, s.caller = .returned err → err = none ∧ s.loop = .exited) ∧
  (s.loop = .exited → s.caller = .returned none)

/-- At most one poll can have happened before the first interval is over:
none yet, or one whose reset put the timer at least one interval after
`Start`, unless a full interval has already passed. -/
def FirstInterval (s : Service) : Prop :=
  s.polls = 0 ∨ (s.polls = 1 ∧ releaseRecheckInterval ≤ s.timer) ∨
    releaseRecheckInterval ≤ s.now

/-! ## Reference definitions, following the specification's wording -/

/-- "Strictly newer" as the specification words it: the lexicographic order
over `(major, minor, patch)`. -/
def StrictlyNewer (a : Version) (b : Config) : Prop :=
  toLex (b.Major, toLex (b.Minor, b.Patch)) < toLex (a.Major, toLex (a.Minor, a.Patch))

instance (a : Version) (b : Config) : Decidable (StrictlyNewer a b) :=
  inferInstanceAs (Decidable
    (toLex (b.Major, toLex (b.Minor, b.Patch)) < toLex (a.Major, toLex (a.Minor, a.Patch))))

/-- A version as the messages show it: decimal `major.minor.patch`, a dash,
and the hex of the first four bytes of the commit hash. -/
def versionText (major minor patch : Nat) (commit : List Nat) : List Char :=
  decimal major ++ ['.'] ++ decimal minor ++ ['.'] ++ decimal patch ++ ['-'] ++
    hexBytes (commit.take 4)

/-- The warning message as the specification describes it: it names the local
version, then the remote version. -/
def warningText (config : Config) (version : Version) : List Char :=
  "Client v".toList ++
    versionText config.Major config.Minor config.Patch config.Commit ++
    " seems older than the latest upstream release v".toList ++
    versionText version.Major version.Minor version.Patch version.Commit

/-- The fixed pointer to the releases page. -/
def howtofixText : String :=
  "Please check https://github.com/elementrem/go-elementrem/releases for new releases"

/-- The client configuration of a build of version `v` watching `oracle`. -/
def localOf (oracle : List Nat) (v : Version) : Config :=
  ⟨oracle, v.Major, v.Minor, v.Patch, v.Commit⟩

/-- Every character of a text is a single byte (ASCII). -/
def Ascii (l : List Char) : Prop :=
  ∀ c ∈ l, c.val ≤ 127

instance (l : List Char) : Decidable (Ascii l) :=
  inferInstanceAs (Decidable (∀ c ∈ l, c.val ≤ 127))

/-- A text occurs inside another one. -/
def Contains (text part : List Char) : Prop :=
  ∃ before after, text = before ++ part ++ after

end Release

namespace Core

/-- Go's `(*big.Int).Cmp`: `-1`, `0` or `+1` as `x` is below, equal to or
above `y`. -/
def Cmp (x y : Int) : Int :=
  if x < y then -1 else if x = y then 0 else 1

/-- ChainConfig is the core config which determines the blockchain settings.
A `*big.Int` is an optional integer, `none` being nil.  The `VmConfig` field,
of a type declared elsewhere, is not read by `IsHomestead` and is left out. -/
structure ChainConfig where
  HomesteadBlock : Option Int
  INTERSTELLARleapBlock : Option Int
  INTERSTELLARleapSupport : Bool
  deriving DecidableEq, Repr

/-- IsHomestead returns whether num is either equal to the homestead block or
greater. -/
def IsHomestead (c : ChainConfig) (num : Option Int) : Bool :=
  match c.HomesteadBlock, num with
  | some homestead, some n => decide (Cmp n homestead ≥ 0)
  | _, _ => false

end Core

/-! # Properties -/

namespace Release

/-! ## The comparison -/

theorem isNewer_eq_true_iff (a : Version) (b : Config) :
    isNewer a b = true ↔
      (a.Major > b.Major ∨ (a.Major = b.Major ∧ a.Minor > b.Minor) ∨
        (a.Major = b.Major ∧ a.Minor = b.Minor ∧ a.Patch > b.Patch)) := by
  simp [isNewer, or_assoc, and_assoc]

theorem strictlyNewer_iff (a : Version) (b : Config) :
    StrictlyNewer a b ↔
      (a.Major > b.Major ∨ (a.Major = b.Major ∧ a.Minor > b.Minor) ∨
        (a.Major = b.Major ∧ a.Minor = b.Minor ∧ a.Patch > b.Patch)) := by
  unfold StrictlyNewer
  rw [Prod.Lex.lt_iff, Prod.Lex.lt_iff]
  simp only [gt_iff_lt, ofLex_toLex]
  constructor
  · rintro (h | ⟨h1, h2 | ⟨h2, h3⟩⟩)
    · exact Or.inl h
    · exact Or.inr (Or.inl ⟨h1.symm, h2⟩)
    · exact Or.inr (Or.inr ⟨h1.symm, h2.symm, h3⟩)
  · rintro (h | ⟨h1, h2⟩ | ⟨h1, h2, h3⟩)
    · exact Or.inl h
    · exact Or.inr ⟨h1.symm, Or.inl h2⟩
    · exact Or.inr ⟨h1.symm, Or.inr ⟨h2.symm, h3⟩⟩

theorem isNewer_iff_strictlyNewer (a : Version) (b : Config) :
    isNewer a b = true ↔ StrictlyNewer a b := by
  rw [isNewer_eq_true_iff, strictlyNewer_iff]

/-- C1: the test `checker` uses to decide that the remote version `a` is newer
than the local version `b` holds exactly when `a.major > b.major`, or the majors
are equal and `a.minor > b.minor`, or majors and minors are equal and
`a.patch > b.patch`; that is, exactly when `(a.major, a.minor, a.patch)` is
above `(b.major, b.minor, b.patch)` in the strict lexicographic order. -/
theorem isNewer_iff_lexicographic (a : Version) (b : Config) :
    (isNewer a b = true ↔
      (a.Major > b.Major ∨ (a.Major = b.Major ∧ a.Minor > b.Minor) ∨
        (a.Major = b.Major ∧ a.Minor = b.Minor ∧ a.Patch > b.Patch))) ∧
    (isNewer a b = true ↔
      toLex (b.Major, toLex (b.Minor, b.Patch)) < toLex (a.Major, toLex (a.Minor, a.Patch))) :=
  ⟨isNewer_eq_true_iff a b, isNewer_iff_strictlyNewer a b⟩

/-- C8: on the `(major, minor, patch)` projection the comparison is a strict
total order: of "a is newer than b", "a and b have the same triple" and
"b is newer than a" exactly one holds, and newer-than is transitive. -/
theorem isNewer_strict_total_order (oracle : List Nat) (a b c : Version) :
    let newer := fun (x y : Version) => isNewer x (localOf oracle y) = true
    let same := fun (x y : Version) =>
      x.Major = y.Major ∧ x.Minor = y.Minor ∧ x.Patch = y.Patch
    ((newer a b ∧ ¬ same a b ∧ ¬ newer b a) ∨
      (¬ newer a b ∧ same a b ∧ ¬ newer b a) ∨
      (¬ newer a b ∧ ¬ same a b ∧ newer b a)) ∧
    (newer a b → newer b c → newer a c) := by
  simp only [isNewer_eq_true_iff, localOf]
  constructor
  · omega
  · omega

/-- Witness for C8: 2.0.0 is newer than 1.9.9, which is newer than 1.9.8. -/
theorem isNewer_strict_total_order_witness :
    isNewer ⟨2, 0, 0, []⟩ (localOf [] ⟨1, 9, 8, []⟩) = true :=
  (isNewer_strict_total_order [] ⟨2, 0, 0, []⟩ ⟨1, 9, 9, []⟩ ⟨1, 9, 8, []⟩).2
    (by decide) (by decide)

end Release

namespace Core

theorem Cmp_nonneg_iff (x y : Int) : Cmp x y ≥ 0 ↔ y ≤ x := by
  unfold Cmp
  split_ifs <;> omega

/-- C10: `c.IsHomestead(num)` is true exactly when `c.HomesteadBlock` is set,
`num` is non-nil and `num` is at least `c.HomesteadBlock`.  With no homestead
block configured it is false for every `num`; with `HomesteadBlock = 0` it is
true for every non-nil, non-negative `num`. -/
theorem IsHomestead_iff (c : ChainConfig) (num : Option Int) :
    (IsHomestead c num = true ↔
      ∃ homestead n, c.HomesteadBlock = some homestead ∧ num = some n ∧ homestead ≤ n) ∧
    (c.HomesteadBlock = none → IsHomestead c num = false) ∧
    (c.HomesteadBlock = some 0 → ∀ n : Int, 0 ≤ n → IsHomestead c (some n) = true) := by
  refine ⟨?_, ?_, ?_⟩
  · unfold IsHomestead
    cases hh : c.HomesteadBlock <;> cases hn : num <;> simp [Cmp_nonneg_iff]
  · intro h
    simp [IsHomestead, h]
  · intro h n hn
    simp [IsHomestead, h, Cmp_nonneg_iff, hn]

/-- Witness for C10: homestead from block 0 on, asked about block 7. -/
theorem IsHomestead_iff_witness : IsHomestead ⟨some 0, none, false⟩ (some 7) = true :=
  (IsHomestead_iff ⟨some 0, none, false⟩ (some 7)).2.2 rfl 7 (by decide)

end Core

namespace Release

/-! ## Texts -/

theorem ascii_nil : Ascii [] := by
  intro c hc
  cases hc

theorem ascii_cons (c : Char) (l : List Char) : Ascii (c :: l) ↔ c.val ≤ 127 ∧ Ascii l := by
  simp [Ascii]

theorem ascii_append (l₁ l₂ : List Char) : Ascii (l₁ ++ l₂) ↔ Ascii l₁ ∧ Ascii l₂ := by
  simp only [Ascii, List.mem_append]
  constructor
  · intro h
    exact ⟨fun c hc => h c (Or.inl hc), fun c hc => h c (Or.inr hc)⟩
  · rintro ⟨h1, h2⟩ c (hc | hc)
    · exact h1 c hc
    · exact h2 c hc

theorem digitChar_ascii (n : Nat) : (Nat.digitChar n).val ≤ 127 := by
  by_cases h : n < 16
  · interval_cases n <;> decide
  · have hstar : Nat.digitChar n = '*' := by
      unfold Nat.digitChar
      repeat' (rw [if_neg (by omega)])
    rw [hstar]
    decide

theorem toDigitsCore_ascii (base : Nat) :
    ∀ (fuel n : Nat) (ds : List Char), Ascii ds → Ascii (Nat.toDigitsCore base fuel n ds) := by
  intro fuel
  induction fuel with
  | zero =>
    intro n ds h
    simpa [Nat.toDigitsCore] using h
  | succ fuel ih =>
    intro n ds h
    have hd : Ascii (Nat.digitChar (n % base) :: ds) :=
      (ascii_cons _ _).2 ⟨digitChar_ascii _, h⟩
    unfold Nat.toDigitsCore
    simp only
    split_ifs
    · exact hd
    · exact ih _ _ hd

theorem decimal_ascii (n : Nat) : Ascii (decimal n) :=
  toDigitsCore_ascii 10 _ _ _ ascii_nil

theorem hexBytes_ascii (bs : List Nat) : Ascii (hexBytes bs) := by
  induction bs with
  | nil => exact ascii_nil
  | cons b bs ih =>
    simp only [hexBytes, hexByte, ascii_append, ascii_cons]
    exact ⟨⟨digitChar_ascii _, digitChar_ascii _, ascii_nil⟩, ih⟩

theorem versionText_ascii (major minor patch : Nat) (commit : List Nat) :
    Ascii (versionText major minor patch commit) := by
  simp only [versionText, ascii_append, ascii_cons]
  refine ⟨⟨⟨⟨⟨⟨decimal_ascii _, ?_, ascii_nil⟩, decimal_ascii _⟩, ?_, ascii_nil⟩,
    decimal_ascii _⟩, ?_, ascii_nil⟩, hexBytes_ascii _⟩ <;> decide

theorem utf8Len_ascii (l : List Char) (h : Ascii l) : String.utf8Len l = l.length := by
  induction l with
  | nil => rfl
  | cons c cs ih =>
    have hc : c.val ≤ 127 := h c (List.mem_cons_self _ _)
    have h1 : c.utf8Size = 1 := by
      unfold Char.utf8Size
      simp only
      rw [if_pos (by simpa using hc)]
    rw [String.utf8Len_cons, ih (fun d hd => h d (List.mem_cons_of_mem _ hd)), h1,
      List.length_cons]

theorem len_mk_ascii (l : List Char) (h : Ascii l) : len (String.mk l) = l.length :=
  utf8Len_ascii l h

theorem Repeat_dash (n : Nat) : Repeat "-" n = String.mk (List.replicate n '-') := by
  induction n with
  | zero => rfl
  | succ n ih =>
    rw [Repeat, ih, List.replicate_succ]
    rfl

theorem warning_text (config : Config) (version : Version) :
    Sprintf "Client v%d.%d.%d-%x seems older than the latest upstream release v%d.%d.%d-%x"
        (versionArgs config version) =
      String.mk (warningText config version) := by
  simp [Sprintf, sprintfAux, versionArgs, fmtVerb, versionText, warningText]

theorem uptodate_text (config : Config) (version : Version) :
    Sprintf "Client v%d.%d.%d-%x seems up to date with upstream v%d.%d.%d-%x"
        (versionArgs config version) =
      String.mk ("Client v".toList ++
        versionText config.Major config.Minor config.Patch config.Commit ++
        " seems up to date with upstream v".toList ++
        versionText version.Major version.Minor version.Patch version.Commit) := by
  simp [Sprintf, sprintfAux, versionArgs, fmtVerb, versionText]

theorem howtofix_text :
    Sprintf "Please check https://github.com/elementrem/go-elementrem/releases for new releases" []
      = howtofixText := by
  decide


/-! ## One poll step -/

theorem pollStep_newer (config : Config) (version : Version) (h : isNewer version config = true) :
    pollStep config (.ok version) =
      [⟨.Warn, Repeat "-" (len (Sprintf
          "Client v%d.%d.%d-%x seems older than the latest upstream release v%d.%d.%d-%x"
          (versionArgs config version)))⟩,
       ⟨.Warn, Sprintf
          "Client v%d.%d.%d-%x seems older than the latest upstream release v%d.%d.%d-%x"
          (versionArgs config version)⟩,
       ⟨.Warn, Sprintf
          "Please check https://github.com/elementrem/go-elementrem/releases for new releases" []⟩,
       ⟨.Warn, Repeat "-" (len (Sprintf
          "Client v%d.%d.%d-%x seems older than the latest upstream release v%d.%d.%d-%x"
          (versionArgs config version)))⟩] := by
  simp only [pollStep, h, if_true]

theorem pollStep_not_newer (config : Config) (version : Version)
    (h : isNewer version config = false) :
    pollStep config (.ok version) =
      [⟨.Debug, Sprintf "Client v%d.%d.%d-%x seems up to date with upstream v%d.%d.%d-%x"
          (versionArgs config version)⟩] := by
  simp [pollStep, h]

theorem pollStep_levels (config : Config) (o : PollOutcome) :
    (pollStep config o).map (fun l => l.level) =
      match o with
      | .errNoCode => [.Debug]
      | .errOther _ => [.Error]
      | .ok version =>
          if isNewer version config then [.Warn, .Warn, .Warn, .Warn] else [.Debug] := by
  cases o with
  | errNoCode => rfl
  | errOther msg => rfl
  | ok version =>
    cases h : isNewer version config
    · simp [pollStep_not_newer _ _ h, h]
    · simp [pollStep_newer _ _ h, h]

theorem warn_mem_iff (config : Config) (o : PollOutcome) :
    (∃ l ∈ pollStep config o, l.level = .Warn) ↔ ∃ v, o = .ok v ∧ isNewer v config = true := by
  have hl := pollStep_levels config o
  have hmem : (∃ l ∈ pollStep config o, l.level = .Warn) ↔
      LogLevel.Warn ∈ (pollStep config o).map (fun l => l.level) := by
    simp [List.mem_map]
  rw [hmem, hl]
  cases o with
  | errNoCode => simp
  | errOther msg => simp
  | ok version =>
    cases h : isNewer version config <;> simp [h]

/-- C2: one poll step emits warning-level output exactly when the oracle call
succeeded and the returned version is strictly newer than the local one.  A
`bind.ErrNoCode` outcome, any other oracle error, a version with the same
`(major, minor, patch)` and an older version each give no warning-level line. -/
theorem pollStep_warns_iff_strictly_newer (config : Config) (o : PollOutcome) :
    ((∃ l ∈ pollStep config o, l.level = .Warn) ↔ ∃ v, o = .ok v ∧ StrictlyNewer v config) ∧
    (∀ l ∈ pollStep config .errNoCode, l.level ≠ .Warn) ∧
    (∀ msg, ∀ l ∈ pollStep config (.errOther msg), l.level ≠ .Warn) ∧
    (∀ v : Version, v.Major = config.Major ∧ v.Minor = config.Minor ∧ v.Patch = config.Patch →
      ∀ l ∈ pollStep config (.ok v), l.level ≠ .Warn) ∧
    (∀ v : Version,
      toLex (v.Major, toLex (v.Minor, v.Patch)) <
        toLex (config.Major, toLex (config.Minor, config.Patch)) →
      ∀ l ∈ pollStep config (.ok v), l.level ≠ .Warn) := by
  have key : ∀ o', (¬ ∃ v, o' = PollOutcome.ok v ∧ isNewer v config = true) →
      ∀ l ∈ pollStep config o', l.level ≠ .Warn := by
    intro o' hno l hl hw
    exact hno ((warn_mem_iff config o').1 ⟨l, hl, hw⟩)
  refine ⟨?_, ?_, ?_, ?_, ?_⟩
  · rw [warn_mem_iff]
    simp only [isNewer_iff_strictlyNewer]
  · exact key _ (by simp)
  · intro msg
    exact key _ (by simp)
  · rintro v ⟨h1, h2, h3⟩
    apply key
    rintro ⟨w, hw, hn⟩
    cases hw
    rw [isNewer_eq_true_iff] at hn
    omega
  · intro v hv
    apply key
    rintro ⟨w, hw, hn⟩
    cases hw
    rw [isNewer_eq_true_iff] at hn
    have hv' := (strictlyNewer_iff ⟨config.Major, config.Minor, config.Patch, []⟩
      ⟨[], v.Major, v.Minor, v.Patch, []⟩).1 hv
    simp only at hv'
    omega

/-- Witness for C2: local 1.5.0 polled against 1.5.0 and against 1.4.9. -/
theorem pollStep_warns_iff_strictly_newer_witness :
    (∀ l ∈ pollStep ⟨[], 1, 5, 0, []⟩ (.ok ⟨1, 5, 0, [7]⟩), l.level ≠ .Warn) ∧
    (∀ l ∈ pollStep ⟨[], 1, 5, 0, []⟩ (.ok ⟨1, 4, 9, [7]⟩), l.level ≠ .Warn) :=
  ⟨(pollStep_warns_iff_strictly_newer ⟨[], 1, 5, 0, []⟩ .errNoCode).2.2.2.1 ⟨1, 5, 0, [7]⟩
      ⟨rfl, rfl, rfl⟩,
   (pollStep_warns_iff_strictly_newer ⟨[], 1, 5, 0, []⟩ .errNoCode).2.2.2.2 ⟨1, 4, 9, [7]⟩
      (by decide)⟩


theorem warningText_ascii (config : Config) (version : Version) :
    Ascii (warningText config version) := by
  simp only [warningText, ascii_append]
  refine ⟨⟨⟨?_, versionText_ascii _ _ _ _⟩, ?_⟩, versionText_ascii _ _ _ _⟩
  · decide
  · decide

theorem versionText_1_5_0 (commit : List Nat) :
    versionText 1 5 0 commit = "1.5.0".toList ++ ('-' :: hexBytes (commit.take 4)) := by
  have h1 : decimal 1 = ['1'] := by decide
  have h5 : decimal 5 = ['5'] := by decide
  have h0 : decimal 0 = ['0'] := by decide
  simp [versionText, h1, h5, h0]

theorem versionText_1_6_0 (commit : List Nat) :
    versionText 1 6 0 commit = "1.6.0".toList ++ ('-' :: hexBytes (commit.take 4)) := by
  have h1 : decimal 1 = ['1'] := by decide
  have h6 : decimal 6 = ['6'] := by decide
  have h0 : decimal 0 = ['0'] := by decide
  simp [versionText, h1, h6, h0]

theorem pollStep_newer_block (config : Config) (version : Version)
    (h : isNewer version config = true) :
    pollStep config (.ok version) =
      [⟨.Warn, String.mk (List.replicate (warningText config version).length '-')⟩,
       ⟨.Warn, String.mk (warningText config version)⟩,
       ⟨.Warn, howtofixText⟩,
       ⟨.Warn, String.mk (List.replicate (warningText config version).length '-')⟩] := by
  rw [pollStep_newer config version h, warning_text, howtofix_text,
    len_mk_ascii _ (warningText_ascii config version), Repeat_dash]

/-- C6: when the polled remote version `R` is strictly newer than the local
version `L`, the poll step emits exactly four lines, all at warning level, in
this order: a separator, the message, the fixed pointer to the releases page,
the same separator.  The message names the local then the remote version, each
as decimal `major.minor.patch` followed by the hex of the first four bytes of
its commit hash, and the separator is `-` repeated as many times as the
message is long.  For local 1.5.0 and remote 1.6.0, whatever the commits, the
message contains both `1.5.0` and `1.6.0`. -/
theorem newer_version_warning_block (L : Config) (R : Version) :
    (StrictlyNewer R L →
      pollStep L (.ok R) =
        [⟨.Warn, String.mk (List.replicate (warningText L R).length '-')⟩,
         ⟨.Warn, String.mk (warningText L R)⟩,
         ⟨.Warn, howtofixText⟩,
         ⟨.Warn, String.mk (List.replicate (warningText L R).length '-')⟩]) ∧
    (∀ oracle H H', ∃ separator message,
      pollStep ⟨oracle, 1, 5, 0, H⟩ (.ok ⟨1, 6, 0, H'⟩) =
        [⟨.Warn, separator⟩, ⟨.Warn, message⟩, ⟨.Warn, howtofixText⟩, ⟨.Warn, separator⟩] ∧
      Contains message.toList "1.5.0".toList ∧ Contains message.toList "1.6.0".toList) := by
  constructor
  · intro h
    exact pollStep_newer_block L R ((isNewer_iff_strictlyNewer R L).2 h)
  · intro oracle H H'
    refine ⟨_, _, pollStep_newer_block ⟨oracle, 1, 5, 0, H⟩ ⟨1, 6, 0, H'⟩ rfl, ?_, ?_⟩
    · refine ⟨"Client v".toList, '-' :: hexBytes (H.take 4) ++
        " seems older than the latest upstream release v".toList ++ versionText 1 6 0 H', ?_⟩
      simp only [String.toList, warningText, versionText_1_5_0, List.append_assoc]
    · refine ⟨"Client v".toList ++ versionText 1 5 0 H ++
        " seems older than the latest upstream release v".toList, '-' :: hexBytes (H'.take 4), ?_⟩
      simp only [String.toList, warningText, versionText_1_6_0, List.append_assoc]

/-- Witness for C6: local 1.5.0 against remote 2.0.1. -/
theorem newer_version_warning_block_witness :
    pollStep ⟨[], 1, 5, 0, [1, 2, 3, 4, 5]⟩ (.ok ⟨2, 0, 1, [171, 205, 0, 255, 9]⟩) =
      [⟨.Warn, String.mk (List.replicate 83 '-')⟩,
       ⟨.Warn, "Client v1.5.0-01020304 seems older than the latest upstream release v2.0.1-abcd00ff"⟩,
       ⟨.Warn, howtofixText⟩,
       ⟨.Warn, String.mk (List.replicate 83 '-')⟩] :=
  (newer_version_warning_block ⟨[], 1, 5, 0, [1, 2, 3, 4, 5]⟩ ⟨2, 0, 1, [171, 205, 0, 255, 9]⟩).1
    (by decide)

/-- C7: the commit hash never affects the outcome of a poll.  Two remote
versions with the same `(major, minor, patch)` polled against two local
versions with the same `(major, minor, patch)` get the same "remote is newer"
decision and the same number of lines at the same levels, whatever the commit
hashes.  In particular remote `{1,2,3,H1}` against local `{1,2,3,H2}` and
remote `{1,5,0,H'}` against local `{1,5,0,H}` give a single debug-level
"up to date" line and no warning. -/
theorem commit_hash_irrelevant (c₁ c₂ : Config) (v₁ v₂ : Version) :
    (c₁.Major = c₂.Major ∧ c₁.Minor = c₂.Minor ∧ c₁.Patch = c₂.Patch →
      v₁.Major = v₂.Major ∧ v₁.Minor = v₂.Minor ∧ v₁.Patch = v₂.Patch →
      isNewer v₁ c₁ = isNewer v₂ c₂ ∧
      (pollStep c₁ (.ok v₁)).map (fun l => l.level) =
        (pollStep c₂ (.ok v₂)).map (fun l => l.level)) ∧
    (∀ oracle H1 H2, ∃ text,
      pollStep ⟨oracle, 1, 2, 3, H2⟩ (.ok ⟨1, 2, 3, H1⟩) = [⟨.Debug, text⟩] ∧
      Contains text.toList " seems up to date with upstream ".toList) ∧
    (∀ oracle H H', ∃ text,
      pollStep ⟨oracle, 1, 5, 0, H⟩ (.ok ⟨1, 5, 0, H'⟩) = [⟨.Debug, text⟩] ∧
      Contains text.toList " seems up to date with upstream ".toList) := by
  have hup : ∀ (c : Config) (v : Version), isNewer v c = false → ∃ text,
      pollStep c (.ok v) = [⟨.Debug, text⟩] ∧
      Contains text.toList " seems up to date with upstream ".toList := by
    intro c v h
    refine ⟨_, pollStep_not_newer c v h, ?_⟩
    rw [uptodate_text]
    refine ⟨"Client v".toList ++ versionText c.Major c.Minor c.Patch c.Commit,
      'v' :: versionText v.Major v.Minor v.Patch v.Commit, ?_⟩
    simp [String.toList]
  refine ⟨?_, ?_, ?_⟩
  · rintro ⟨hc1, hc2, hc3⟩ ⟨hv1, hv2, hv3⟩
    have hn : isNewer v₁ c₁ = isNewer v₂ c₂ := by
      simp only [isNewer, hc1, hc2, hc3, hv1, hv2, hv3]
    refine ⟨hn, ?_⟩
    rw [pollStep_levels, pollStep_levels]
    simp only [hn]
  · intro oracle H1 H2
    exact hup _ _ rfl
  · intro oracle H H'
    exact hup _ _ rfl

/-- Witness for C7: 1.6.0 against 1.5.0 under two different pairs of commits. -/
theorem commit_hash_irrelevant_witness :
    isNewer ⟨1, 6, 0, [1]⟩ ⟨[], 1, 5, 0, [2]⟩ = isNewer ⟨1, 6, 0, [3]⟩ ⟨[9], 1, 5, 0, [4]⟩ ∧
    (pollStep ⟨[], 1, 5, 0, [2]⟩ (.ok ⟨1, 6, 0, [1]⟩)).map (fun l => l.level) =
      (pollStep ⟨[9], 1, 5, 0, [4]⟩ (.ok ⟨1, 6, 0, [3]⟩)).map (fun l => l.level) :=
  (commit_hash_irrelevant ⟨[], 1, 5, 0, [2]⟩ ⟨[9], 1, 5, 0, [4]⟩ ⟨1, 6, 0, [1]⟩
    ⟨1, 6, 0, [3]⟩).1 ⟨rfl, rfl, rfl⟩ ⟨rfl, rfl, rfl⟩


/-! ## Executions -/

theorem run_nil (s : Service) : run s [] = some s := rfl

theorem run_cons (s : Service) (e : Event) (es : List Event) :
    run s (e :: es) = (step s e).bind fun s' => run s' es := rfl

theorem run_append (es₁ es₂ : List Event) :
    ∀ s : Service, run s (es₁ ++ es₂) = (run s es₁).bind fun s' => run s' es₂ := by
  induction es₁ with
  | nil => intro s; rfl
  | cons e es ih =>
    intro s
    rw [List.cons_append, run_cons, run_cons]
    cases step s e with
    | none => rfl
    | some s₁ => exact ih s₁

/-- Inversion of `step`: the five ways a step can succeed. -/
theorem step_cases (s s' : Service) (e : Event) (h : step s e = some s') :
    (∃ d, e = .tick d ∧ s' = { s with now := s.now + d }) ∨
    (e = .timerFire ∧ s.loop = .atSelect ∧ s.timer ≤ s.now ∧
      s' = { s with timer := s.now + releaseRecheckInterval, loop := .polling,
                    polls := s.polls + 1 }) ∨
    (∃ o, e = .oracleReturn o ∧ s.loop = .polling ∧
      s' = { s with log := s.log ++ pollStep s.config o, loop := .atSelect }) ∨
    (e = .stopCall ∧ s.caller = .idle ∧ s' = { s with caller := .sending }) ∨
    (e = .quitRecv ∧ s.loop = .atSelect ∧ s.caller = .sending ∧
      s' = { s with loop := .exited, caller := .returned none }) := by
  cases e with
  | tick d =>
    simp only [step, Option.some.injEq] at h
    exact Or.inl ⟨d, rfl, h.symm⟩
  | timerFire =>
    simp only [step] at h
    split_ifs at h with hc
    simp only [Option.some.injEq] at h
    exact Or.inr (Or.inl ⟨rfl, hc.1, hc.2, h.symm⟩)
  | oracleReturn o =>
    simp only [step] at h
    split_ifs at h with hc
    simp only [Option.some.injEq] at h
    exact Or.inr (Or.inr (Or.inl ⟨o, rfl, hc, h.symm⟩))
  | stopCall =>
    simp only [step] at h
    split_ifs at h with hc
    simp only [Option.some.injEq] at h
    exact Or.inr (Or.inr (Or.inr (Or.inl ⟨rfl, hc, h.symm⟩)))
  | quitRecv =>
    simp only [step] at h
    split_ifs at h with hc
    simp only [Option.some.injEq] at h
    exact Or.inr (Or.inr (Or.inr (Or.inr ⟨rfl, hc.1, hc.2, h.symm⟩)))

/-- A property kept by every step is kept by every execution. -/
theorem run_preserves (P : Service → Prop)
    (hstep : ∀ s e s', P s → step s e = some s' → P s') :
    ∀ (es : List Event) (s s' : Service), P s → run s es = some s' → P s' := by
  intro es
  induction es with
  | nil =>
    intro s s' hP h
    simp only [run_nil, Option.some.injEq] at h
    exact h ▸ hP
  | cons e es ih =>
    intro s s' hP h
    rw [run_cons] at h
    cases hs : step s e with
    | none => simp [hs] at h
    | some s₁ =>
      rw [hs] at h
      exact ih s₁ s' (hstep s e s₁ hP hs) h

theorem handshake_start (config : Config) : Handshake (Start config) := by
  constructor
  · intro err h
    simp [Start] at h
  · intro h
    simp [Start] at h

theorem handshake_step (s : Service) (e : Event) (s' : Service)
    (hP : Handshake s) (h : step s e = some s') : Handshake s' := by
  obtain ⟨h1, h2⟩ := hP
  rcases step_cases s s' e h with ⟨d, -, rfl⟩ | ⟨-, hl, -, rfl⟩ | ⟨o, -, hl, rfl⟩ |
    ⟨-, hc, rfl⟩ | ⟨-, hl, hc, rfl⟩
  · exact ⟨h1, h2⟩
  · refine ⟨fun err herr => ?_, fun hex => ?_⟩
    · have := (h1 err herr).2
      simp [hl] at this
    · simp at hex
  · refine ⟨fun err herr => ?_, fun hex => ?_⟩
    · have := (h1 err herr).2
      simp [hl] at this
    · simp at hex
  · refine ⟨fun err herr => ?_, fun hex => ?_⟩
    · simp at herr
    · have := h2 hex
      simp [hc] at this
  · refine ⟨fun err herr => ?_, fun _ => rfl⟩
    simp only [Caller.returned.injEq] at herr
    exact ⟨herr.symm, rfl⟩

theorem handshake_run (config : Config) (es : List Event) (s : Service)
    (h : run (Start config) es = some s) : Handshake s :=
  run_preserves Handshake handshake_step es _ s (handshake_start config) h

/-- Once the loop has exited, a step changes neither the loop, nor the number
of polls, nor the log. -/
theorem exited_step (s : Service) (e : Event) (s' : Service)
    (hex : s.loop = .exited) (h : step s e = some s') :
    s'.loop = .exited ∧ s'.polls = s.polls ∧ s'.log = s.log := by
  rcases step_cases s s' e h with ⟨d, -, rfl⟩ | ⟨-, hl, -, rfl⟩ | ⟨o, -, hl, rfl⟩ |
    ⟨-, hc, rfl⟩ | ⟨-, hl, hc, rfl⟩
  · exact ⟨hex, rfl, rfl⟩
  · simp [hex] at hl
  · simp [hex] at hl
  · exact ⟨hex, rfl, rfl⟩
  · simp [hex] at hl

theorem exited_run (s₀ : Service) (hex : s₀.loop = .exited) (es : List Event) (s' : Service)
    (h : run s₀ es = some s') :
    s'.loop = .exited ∧ s'.polls = s₀.polls ∧ s'.log = s₀.log := by
  refine run_preserves (fun s => s.loop = .exited ∧ s.polls = s₀.polls ∧ s.log = s₀.log)
    ?_ es s₀ s' ⟨hex, rfl, rfl⟩ h
  intro s e s₁ hP hs
  obtain ⟨h1, h2, h3⟩ := exited_step s e s₁ hP.1 hs
  exact ⟨h1, h2.trans hP.2.1, h3.trans hP.2.2⟩

/-- C4: once the loop has received the termination request and acknowledged
it, it is in a terminal state: the timer case and the rest of a poll are no
longer enabled, and in every continuation of the execution the number of
oracle polls and the log stay what they were.  `Stop` returns only in that
state, so nothing happens after `Stop` returns. -/
theorem stopped_is_terminal (config : Config) (es₁ : List Event) (s : Service) :
    run (Start config) es₁ = some s →
    (s.loop = .exited ∨ ∃ err, s.caller = .returned err) →
    step s .timerFire = none ∧ (∀ o, step s (.oracleReturn o) = none) ∧
    ∀ (es₂ : List Event) (s' : Service), run s es₂ = some s' →
      s'.loop = .exited ∧ s'.polls = s.polls ∧ s'.log = s.log := by
  intro hrun hstop
  have hex : s.loop = .exited := by
    rcases hstop with h | ⟨err, h⟩
    · exact h
    · exact ((handshake_run config es₁ s hrun).1 err h).2
  refine ⟨?_, ?_, fun es₂ s' h => exited_run s hex es₂ s' h⟩
  · simp [step, hex]
  · intro o
    simp [step, hex]

/-- Witness for C4: one poll, then `Stop`, then two more hours. -/
theorem stopped_is_terminal_witness :
    ∃ s s', run (Start ⟨[], 1, 5, 0, []⟩) [.timerFire, .oracleReturn .errNoCode, .stopCall,
        .quitRecv] = some s ∧
      run s [.tick (2 * releaseRecheckInterval)] = some s' ∧
      s'.loop = .exited ∧ s'.polls = s.polls ∧ s'.log = s.log :=
  ⟨_, _, rfl, rfl,
    (stopped_is_terminal ⟨[], 1, 5, 0, []⟩
      [.timerFire, .oracleReturn .errNoCode, .stopCall, .quitRecv] _ rfl
      (Or.inl rfl)).2.2 [.tick (2 * releaseRecheckInterval)] _ rfl⟩


/-! ## Polls without a termination request -/

theorem pollTrace_run (config : Config) (os : List PollOutcome) :
    ∀ s : Service, s.config = config → s.loop = .atSelect →
      s.timer ≤ s.now + releaseRecheckInterval →
      ∃ s', run s (pollTrace os) = some s' ∧ s'.config = config ∧ s'.loop = .atSelect ∧
        s'.caller = s.caller ∧ s'.polls = s.polls + os.length ∧
        s'.log = s.log ++ os.flatMap (pollStep config) := by
  induction os with
  | nil =>
    intro s hc hl _
    exact ⟨s, rfl, hc, hl, rfl, by simp, by simp⟩
  | cons o os ih =>
    intro s hc hl ht
    obtain ⟨s', hrun, hc', hl', hcal, hp, hlog⟩ := ih
      { s with now := s.now + releaseRecheckInterval,
               timer := s.now + releaseRecheckInterval + releaseRecheckInterval,
               polls := s.polls + 1,
               log := s.log ++ pollStep s.config o } hc hl (le_refl _)
    refine ⟨s', ?_, hc', hl', hcal, ?_, ?_⟩
    · rw [← hrun]
      simp [pollTrace, run, step, hl, ht]
    · rw [hp]
      simp only [List.length_cons]
      omega
    · rw [hlog, hc]
      simp [List.flatMap_cons, List.append_assoc]

theorem stop_at_select (s : Service) (hl : s.loop = .atSelect) (hc : s.caller = .idle) :
    run s [.stopCall, .quitRecv] =
      some { s with loop := .exited, caller := .returned none } := by
  simp [run, step, hl, hc]

theorem no_stop_step (s : Service) (e : Event) (s' : Service)
    (hP : s.loop ≠ .exited ∧ s.caller = .idle) (h : step s e = some s') (he : e ≠ .stopCall) :
    s'.loop ≠ .exited ∧ s'.caller = .idle := by
  obtain ⟨h1, h2⟩ := hP
  rcases step_cases s s' e h with ⟨d, -, rfl⟩ | ⟨-, hl, -, rfl⟩ | ⟨o, -, hl, rfl⟩ |
    ⟨hs, -, -⟩ | ⟨-, hl, hc, rfl⟩
  · exact ⟨h1, h2⟩
  · exact ⟨by simp, h2⟩
  · exact ⟨by simp, h2⟩
  · exact absurd hs he
  · simp [h2] at hc

theorem no_stop_run (es : List Event) :
    ∀ s s' : Service, s.loop ≠ .exited ∧ s.caller = .idle → run s es = some s' →
      Event.stopCall ∉ es → s'.loop ≠ .exited ∧ s'.caller = .idle := by
  induction es with
  | nil =>
    intro s s' hP h _
    simp only [run_nil, Option.some.injEq] at h
    exact h ▸ hP
  | cons e es ih =>
    intro s s' hP h hno
    rw [run_cons] at h
    cases hs : step s e with
    | none => simp [hs] at h
    | some s₁ =>
      rw [hs] at h
      have he : e ≠ .stopCall := fun heq => hno (heq ▸ List.mem_cons_self _ _)
      exact ih s₁ s' (no_stop_step s e s₁ hP hs he) h
        (fun hmem => hno (List.mem_cons_of_mem _ hmem))

/-- C3: no poll error ends the loop or reaches a caller.  After any finite
sequence of poll outcomes, one interval apart and with no termination request
in between, the loop is still at its `select`, has polled once per outcome and
has logged each outcome, and a `Stop` issued then returns nil.  Whatever the
timing, an execution without a termination request never leaves the loop
exited (a `Stop` issued while it is at its `select` returns nil), and `Stop`
never returns anything but nil.  After three consecutive
`bind.ErrNoCode` polls the service is running with three debug-level lines and
no warning-level or error-level line. -/
theorem poll_errors_absorbed (config : Config) :
    (∀ os : List PollOutcome, ∃ s, run (Start config) (pollTrace os) = some s ∧
      s.loop = .atSelect ∧ s.caller = .idle ∧ s.polls = os.length ∧
      s.log = os.flatMap (pollStep config) ∧
      ∃ s', run s [.stopCall, .quitRecv] = some s' ∧ s'.caller = .returned none ∧
        s'.loop = .exited ∧ s'.log = s.log) ∧
    (∀ es s, run (Start config) es = some s → Event.stopCall ∉ es →
      s.loop ≠ .exited ∧ s.caller = .idle ∧
      (s.loop = .atSelect → ∃ s', run s [.stopCall, .quitRecv] = some s' ∧
        s'.caller = .returned none ∧ s'.log = s.log)) ∧
    (∀ es s err, run (Start config) es = some s → s.caller = .returned err → err = none) ∧
    (∃ s, run (Start config) (pollTrace [.errNoCode, .errNoCode, .errNoCode]) = some s ∧
      s.loop = .atSelect ∧ s.log.length = 3 ∧ countLevel .Debug s.log = 3 ∧
      countLevel .Warn s.log = 0 ∧ countLevel .Error s.log = 0) := by
  have hpolls : ∀ os : List PollOutcome, ∃ s, run (Start config) (pollTrace os) = some s ∧
      s.loop = .atSelect ∧ s.caller = .idle ∧ s.polls = os.length ∧
      s.log = os.flatMap (pollStep config) := by
    intro os
    obtain ⟨s, hrun, -, hl, hc, hp, hlog⟩ := pollTrace_run config os (Start config) rfl rfl
      (by simp [Start])
    exact ⟨s, hrun, hl, hc, by simpa [Start] using hp, by simpa [Start] using hlog⟩
  refine ⟨?_, ?_, ?_, ?_⟩
  · intro os
    obtain ⟨s, hrun, hl, hc, hp, hlog⟩ := hpolls os
    exact ⟨s, hrun, hl, hc, hp, hlog, _, stop_at_select s hl hc, rfl, rfl, rfl⟩
  · intro es s hrun hno
    obtain ⟨hl, hc⟩ := no_stop_run es (Start config) s ⟨by simp [Start], rfl⟩ hrun hno
    exact ⟨hl, hc, fun hsel => ⟨_, stop_at_select s hsel hc, rfl, rfl⟩⟩
  · intro es s err hrun herr
    exact ((handshake_run config es s hrun).1 err herr).1
  · obtain ⟨s, hrun, hl, -, -, hlog⟩ := hpolls [.errNoCode, .errNoCode, .errNoCode]
    refine ⟨s, hrun, hl, ?_, ?_, ?_, ?_⟩ <;> rw [hlog] <;> simp [pollStep, countLevel]

/-- Witness for C3: an error poll and an hour of waiting leave the loop running. -/
theorem poll_errors_absorbed_witness :
    ∃ s, run (Start ⟨[], 1, 5, 0, []⟩)
        [.timerFire, .oracleReturn (.errOther "connection refused"),
         .tick releaseRecheckInterval] = some s ∧
      s.loop ≠ .exited ∧ s.caller = .idle :=
  ⟨_, rfl,
    have h := (poll_errors_absorbed ⟨[], 1, 5, 0, []⟩).2.1
      [.timerFire, .oracleReturn (.errOther "connection refused"), .tick releaseRecheckInterval]
      _ rfl (by decide)
    ⟨h.1, h.2.1⟩⟩


/-! ## Termination requested during a poll, and right after `Start` -/

theorem pollStep_ne_nil (config : Config) (o : PollOutcome) : pollStep config o ≠ [] := by
  intro h
  have hl := congrArg List.length (congrArg (List.map fun l => l.level) h)
  rw [pollStep_levels] at hl
  cases o with
  | errNoCode => simp at hl
  | errOther msg => simp at hl
  | ok version =>
    cases hn : isNewer version config <;> simp [hn] at hl

theorem log_grows_step (s : Service) (e : Event) (s' : Service) (h : step s e = some s') :
    s'.config = s.config ∧ ∃ rest, s'.log = s.log ++ rest := by
  rcases step_cases s s' e h with ⟨d, -, rfl⟩ | ⟨-, -, -, rfl⟩ | ⟨o, -, -, rfl⟩ |
    ⟨-, -, rfl⟩ | ⟨-, -, -, rfl⟩
  · exact ⟨rfl, [], by simp⟩
  · exact ⟨rfl, [], by simp⟩
  · exact ⟨rfl, _, rfl⟩
  · exact ⟨rfl, [], by simp⟩
  · exact ⟨rfl, [], by simp⟩

theorem log_grows_run (s₀ : Service) (es : List Event) (s' : Service)
    (h : run s₀ es = some s') : s'.config = s₀.config ∧ ∃ rest, s'.log = s₀.log ++ rest := by
  refine run_preserves (fun s => s.config = s₀.config ∧ ∃ rest, s.log = s₀.log ++ rest)
    ?_ es s₀ s' ⟨rfl, [], by simp⟩ h
  intro s e s₁ hP hs
  obtain ⟨hc, rest, hlog⟩ := hP
  obtain ⟨hc₁, rest₁, hlog₁⟩ := log_grows_step s e s₁ hs
  exact ⟨hc₁.trans hc, rest ++ rest₁, by rw [hlog₁, hlog, List.append_assoc]⟩

theorem polling_must_log (es : List Event) :
    ∀ s s' : Service, s.loop = .polling → run s es = some s' → s'.loop = .exited →
      ∃ o rest, s'.log = s.log ++ pollStep s.config o ++ rest := by
  induction es with
  | nil =>
    intro s s' hl h hex
    simp only [run_nil, Option.some.injEq] at h
    rw [← h, hl] at hex
    cases hex
  | cons e es ih =>
    intro s s' hl h hex
    rw [run_cons] at h
    cases hs : step s e with
    | none => simp [hs] at h
    | some s₁ =>
      rw [hs] at h
      simp only [Option.some_bind] at h
      rcases step_cases s s₁ e hs with ⟨d, -, rfl⟩ | ⟨-, hl', -, -⟩ | ⟨o, -, -, rfl⟩ |
        ⟨-, -, rfl⟩ | ⟨-, hl', -, -⟩
      · exact ih { s with now := s.now + d } s' hl h hex
      · simp [hl] at hl'
      · obtain ⟨-, rest, hlog⟩ := log_grows_run _ es s' h
        exact ⟨o, rest, hlog⟩
      · exact ih { s with caller := .sending } s' hl h hex
      · simp [hl] at hl'

/-- C5 as stated fails: with the oracle call outstanding and `Stop` blocked on
`r.quit`, the termination case cannot be taken; `Stop` returns only after the
call has returned, and the poll in flight has then logged its warning block. -/
theorem stop_during_poll_counterexample :
    ∃ s, run (Start ⟨[], 1, 5, 0, [1, 2, 3, 4]⟩) [.timerFire, .stopCall] = some s ∧
      s.loop = .polling ∧ s.caller = .sending ∧ s.log = [] ∧
      step s .quitRecv = none ∧
      ∃ s', run s [.oracleReturn (.ok ⟨1, 6, 0, [5, 6, 7, 8]⟩), .quitRecv] = some s' ∧
        s'.caller = .returned none ∧ s'.log.length = 4 :=
  ⟨_, rfl, rfl, rfl, rfl, rfl, _, rfl, rfl, by decide⟩

/-- C5, amended: when termination is requested while a poll step is in
progress, the loop cannot take the request until the oracle call has returned.
The poll in flight is completed: its result is compared and logged as usual
(at least one line), and only then, back at its `select`, the loop
acknowledges with nil and exits.  Every execution that gets the loop from the
middle of a poll to its exit has logged the outcome of that poll. -/
theorem stop_during_poll_completes_poll (s : Service) (hl : s.loop = .polling)
    (hc : s.caller = .sending) :
    step s .quitRecv = none ∧
    (∀ o, run s [.oracleReturn o, .quitRecv] =
      some { s with log := s.log ++ pollStep s.config o, loop := .exited,
                    caller := .returned none }) ∧
    (∀ o, pollStep s.config o ≠ []) ∧
    (∀ (es : List Event) (s' : Service), run s es = some s' → s'.loop = .exited →
      ∃ o rest, s'.log = s.log ++ pollStep s.config o ++ rest) := by
  refine ⟨?_, ?_, fun o => pollStep_ne_nil _ o, fun es s' h hex => polling_must_log es s s' hl h hex⟩
  · simp [step, hl]
  · intro o
    simp [run, step, hl, hc]

/-- Witness for C5, amended: `Stop` called during the first poll. -/
theorem stop_during_poll_completes_poll_witness :
    step { Start ⟨[], 1, 5, 0, []⟩ with loop := .polling, caller := .sending } .quitRecv = none :=
  (stop_during_poll_completes_poll
    { Start ⟨[], 1, 5, 0, []⟩ with loop := .polling, caller := .sending } rfl rfl).1

theorem firstInterval_step (s : Service) (e : Event) (s' : Service)
    (hP : FirstInterval s) (h : step s e = some s') : FirstInterval s' := by
  unfold FirstInterval at hP ⊢
  rcases step_cases s s' e h with ⟨d, -, rfl⟩ | ⟨-, -, ht, rfl⟩ | ⟨o, -, -, rfl⟩ |
    ⟨-, -, rfl⟩ | ⟨-, -, -, rfl⟩
  · simp only
    omega
  · simp only
    omega
  · exact hP
  · exact hP
  · exact hP

theorem polls_count (es : List Event) :
    ∀ s s' : Service, run s es = some s' → s'.polls = s.polls + es.count .timerFire := by
  induction es with
  | nil =>
    intro s s' h
    simp only [run_nil, Option.some.injEq] at h
    simp [← h]
  | cons e es ih =>
    intro s s' h
    rw [run_cons] at h
    cases hs : step s e with
    | none => simp [hs] at h
    | some s₁ =>
      rw [hs] at h
      simp only [Option.some_bind] at h
      have hrec := ih s₁ s' h
      rcases step_cases s s₁ e hs with ⟨d, rfl, rfl⟩ | ⟨rfl, -, -, rfl⟩ | ⟨o, rfl, -, rfl⟩ |
        ⟨rfl, -, rfl⟩ | ⟨rfl, -, -, rfl⟩
      · simpa using hrec
      · rw [hrec, List.count_cons_self]
        simp only
        omega
      · simpa using hrec
      · simpa using hrec
      · simpa using hrec

/-- C9 as stated fails: `Stop` right after `Start`; the `select` takes the
termination request and the loop exits without a single oracle poll. -/
theorem start_then_stop_counterexample :
    ∃ s, run (Start ⟨[], 1, 5, 0, []⟩) [.stopCall, .quitRecv] = some s ∧
      s.loop = .exited ∧ s.caller = .returned none ∧ s.now < releaseRecheckInterval ∧
      s.polls = 0 :=
  ⟨_, rfl, rfl, rfl, by decide, rfl⟩

/-- C9, amended: in every execution in which the loop exits before the first
recheck interval has elapsed since `Start`, the service has performed at most
one oracle poll: as many as the number of times its `select` took the timer
case, which is one when the zero-delay timer was taken before the termination
request and none when the request was taken first.  Both happen. -/
theorem start_then_stop_at_most_one_poll (config : Config) (es : List Event) (s : Service) :
    (run (Start config) es = some s → s.now < releaseRecheckInterval →
      s.polls ≤ 1 ∧ s.polls = es.count .timerFire) ∧
    (∀ o, ∃ s₁, run (Start config) [.timerFire, .oracleReturn o, .stopCall, .quitRecv] = some s₁ ∧
      s₁.loop = .exited ∧ s₁.now < releaseRecheckInterval ∧ s₁.polls = 1) ∧
    (∃ s₀, run (Start config) [.stopCall, .quitRecv] = some s₀ ∧
      s₀.loop = .exited ∧ s₀.now < releaseRecheckInterval ∧ s₀.polls = 0) := by
  have hI : 0 < releaseRecheckInterval := by decide
  refine ⟨?_, ?_, ?_⟩
  · intro hrun ht
    have hF : FirstInterval s :=
      run_preserves FirstInterval firstInterval_step es _ s (Or.inl rfl) hrun
    have hcount := polls_count es _ s hrun
    refine ⟨?_, by simpa [Start] using hcount⟩
    unfold FirstInterval at hF
    omega
  · intro o
    exact ⟨_, rfl, rfl, hI, rfl⟩
  · exact ⟨_, rfl, rfl, hI, rfl⟩

/-- Witness for C9, amended: the poll taken first, `Stop` half an hour later. -/
theorem start_then_stop_at_most_one_poll_witness :
    ∃ s, run (Start ⟨[], 1, 5, 0, []⟩)
        [.timerFire, .oracleReturn .errNoCode, .tick 1800000000000, .stopCall, .quitRecv]
        = some s ∧ s.polls ≤ 1 :=
  ⟨_, rfl, ((start_then_stop_at_most_one_poll ⟨[], 1, 5, 0, []⟩
    [.timerFire, .oracleReturn .errNoCode, .tick 1800000000000, .stopCall, .quitRecv] _).1
    rfl (by decide)).1⟩

end Release
